import Mathlib

/-!
Verification development for the process-supervision and log-streaming
subsystem of the mint-verdaccio-manager repository
(src/src-tauri/src/tools/verdaccio.rs).

The Rust code is shallowly embedded: the `VerdaccioProcess` shared record
becomes a plain structure, every Tauri command becomes a pure function from
an explicit pre-state (plus the outcomes of the external OS interactions:
spawn, kill, clock reads) to a post-state and a result.  Sequences of
separate `Mutex` acquisitions inside one Rust operation are additionally
modelled as explicit lists of atomic micro-steps where interleaving with a
concurrent status query matters.

Machine integers: `port` is a `u16` and pids are `u32` in the source; no
claim involves wrap-around, and the embedding never performs arithmetic on
them, so they are carried as `Nat`.
-/

namespace Verdaccio

/-- `LogEntry` (verdaccio.rs lines 9-14). -/
structure LogEntry where
  timestamp : String
  level : String
  message : String
  deriving DecidableEq, Repr

/-- `VerdaccioStatus` (verdaccio.rs lines 17-24). -/
structure VerdaccioStatus where
  running : Bool
  port : Nat
  pid : Option Nat
  storage_path : String
  config_path : String
  deriving DecidableEq, Repr

/-- `VerdaccioProcess` (verdaccio.rs lines 27-33).  Each field sits behind
its own `Mutex` in the source; here the record is the shared state and each
lock acquisition is one atomic read/write of a field.  `child` holds the
`CommandChild` handle, represented by the pid it wraps; the log `VecDeque`
is a list whose head is the front (oldest entry). -/
structure VerdaccioProcess where
  child : Option Nat
  port : Nat
  pid : Option Nat
  logs : List LogEntry
  is_running : Bool
  deriving DecidableEq, Repr

/-- `MAX_LOG_ENTRIES` (verdaccio.rs line 35). -/
def MAX_LOG_ENTRIES : Nat := 1000

/-- `VerdaccioProcess::default` (verdaccio.rs lines 37-47). -/
def VerdaccioProcess.default : VerdaccioProcess :=
  { child := none
  , port := 4873
  , pid := none
  , logs := []
  , is_running := false }

/-- The escape character `\x1b` that opens an ANSI sequence. -/
def escChar : Char := '\x1b'

/-- A parameter byte of the regex `\x1b\[[0-9;]*m`: an ASCII digit or `;`. -/
def isParamChar (c : Char) : Bool := c.isDigit || c = ';'

/-- After `ESC [`, consume `[0-9;]*` and then require a literal `m`;
return the remainder on success.  This is the unique way the regex
`\x1b\[[0-9;]*m` can match at a position, since `m` is not a parameter
byte (no backtracking is possible). -/
def skipParams : List Char → Option (List Char)
  | [] => none
  | c :: cs => if isParamChar c then skipParams cs else if c = 'm' then some cs else none

/-- Try to match `\[[0-9;]*m` (the tail of the ANSI regex) at the head of
the list, returning the remainder after the match. -/
def matchSgr : List Char → Option (List Char)
  | [] => none
  | c :: rest => if c = '[' then skipParams rest else none

/-- Left-to-right removal of every (necessarily non-overlapping) match of
`\x1b\[[0-9;]*m`, exactly what `Regex::replace_all(s, "")` does for this
pattern.  The fuel argument bounds the number of scanning steps; every step
consumes at least one character, so `cs.length` fuel always suffices. -/
def stripAnsiFuel : Nat → List Char → List Char
  | 0, cs => cs
  | _ + 1, [] => []
  | n + 1, c :: rest =>
    if c = escChar then
      match matchSgr rest with
      | some rest2 => stripAnsiFuel n rest2
      | none => c :: stripAnsiFuel n rest
    else c :: stripAnsiFuel n rest

/-- Removal of all SGR escapes from a character list. -/
def stripAnsiList (cs : List Char) : List Char := stripAnsiFuel cs.length cs

/-- `VerdaccioProcess::strip_ansi_codes` (verdaccio.rs lines 51-54):
`Regex::new(r"\x1b\[[0-9;]*m")` then `replace_all(s, "")`. -/
def strip_ansi_codes (s : String) : String := String.mk (stripAnsiList s.data)

/-- The eviction loop of `add_log` (verdaccio.rs lines 66-68):
`while logs.len() > MAX_LOG_ENTRIES { logs.pop_front(); }`.
The fuel bounds the number of iterations; each iteration shortens the list,
so `logs.length` fuel always suffices. -/
def popFrontLoop : Nat → List LogEntry → List LogEntry
  | 0, logs => logs
  | fuel + 1, logs =>
    if logs.length > MAX_LOG_ENTRIES then popFrontLoop fuel (logs.drop 1) else logs

/-- `VerdaccioProcess::add_log` (verdaccio.rs lines 56-70).  The whole body
runs under the single `logs` lock, so it is one atomic step on the record.
The wall-clock timestamp is an explicit argument; the message is
ANSI-stripped (and nothing else) before `push_back`, then the eviction loop
runs. -/
def add_log (s : VerdaccioProcess) (level : String) (timestamp : String)
    (message : String) : VerdaccioProcess :=
  let clean_message := strip_ansi_codes message
  let logs := s.logs ++ [{ timestamp := timestamp, level := level, message := clean_message }]
  { s with logs := popFrontLoop logs.length logs }

/-- `VerdaccioProcess::set_running` (verdaccio.rs lines 72-76): one
acquisition of the `is_running` lock. -/
def set_running (s : VerdaccioProcess) (running : Bool) : VerdaccioProcess :=
  { s with is_running := running }

/-- `VerdaccioProcess::check_running` (verdaccio.rs lines 78-80). -/
def check_running (s : VerdaccioProcess) : Bool := s.is_running

/-- `get_verdaccio_dir` (verdaccio.rs lines 84-87): `home.join(".verdaccio")`,
with the home directory an explicit argument and `PathBuf::join` rendered
with `/`. -/
def get_verdaccio_dir (home : String) : String := home ++ "/.verdaccio"

/-- `get_config_path` (verdaccio.rs lines 90-92). -/
def get_config_path (home : String) : String := get_verdaccio_dir home ++ "/config.yaml"

/-- `get_storage_path` (verdaccio.rs lines 95-97). -/
def get_storage_path (home : String) : String := get_verdaccio_dir home ++ "/storage"

/-- The on-disk artifacts `ensure_verdaccio_dirs` touches: whether the
`.verdaccio` directory, the storage directory and the `config.yaml` file
exist. -/
structure FsState where
  verdaccio_dir : Bool
  storage_dir : Bool
  config_file : Bool
  deriving DecidableEq, Repr

/-- `ensure_verdaccio_dirs` (verdaccio.rs lines 158-208) on its success
path: create whichever of the directory, storage directory and default
config file is missing (the I/O operations are modelled as succeeding; an
I/O failure would surface as a different error string before the
already-running check, which only strengthens the C6 counterexample). -/
def ensure_verdaccio_dirs (fs : FsState) : FsState :=
  let fs := if fs.verdaccio_dir then fs else { fs with verdaccio_dir := true }
  let fs := if fs.storage_dir then fs else { fs with storage_dir := true }
  if fs.config_file then fs else { fs with config_file := true }

/-- The argument vector built for the Node sidecar (verdaccio.rs lines
252-258): entry script, `--config <path>`, `--listen <host>:<port>` where
the host is `0.0.0.0` when `allow_lan` and `127.0.0.1` otherwise
(line 240). -/
def spawn_args (verdaccio_entry : String) (config_path : String)
    (port : Nat) (allow_lan : Bool) : List String :=
  let listen_host := if allow_lan then "0.0.0.0" else "127.0.0.1"
  [verdaccio_entry, "--config", config_path, "--listen", listen_host ++ ":" ++ toString port]

/-- Outcome of `sidecar.spawn()`: either a child with a pid, or the error
text of the failure. -/
inductive SpawnOutcome where
  | ok (pid : Nat)
  | fail (err : String)
  deriving DecidableEq, Repr

/-- `start_verdaccio` (verdaccio.rs lines 212-330).  External interactions
are explicit arguments: the filesystem state `fs`, the result of
`get_verdaccio_entry` (a path-probing chain over the environment), the
sidecar spawn outcome, and the timestamp the logger would read.  The
returned triple is (filesystem after the call, record after the call,
command result).  The background event-consumer task the Rust code spawns
is modelled separately (`term_steps` below); this function covers
everything the command itself does. -/
def start_verdaccio (home : String) (fs : FsState) (s : VerdaccioProcess)
    (port : Nat) (allow_lan : Bool) (entry : Except String String)
    (spawn : SpawnOutcome) (ts : String) :
    FsState × VerdaccioProcess × Except String VerdaccioStatus :=
  let fs := ensure_verdaccio_dirs fs
  if check_running s then
    (fs, s, .error "Verdaccio 已经在运行")
  else if s.child.isSome then
    (fs, s, .error "Verdaccio 已经在运行")
  else
    match entry with
    | .error e => (fs, s, .error e)
    | .ok verdaccio_entry =>
      let config_path := get_config_path home
      let s := add_log s "INFO" ts "正在启动 Verdaccio..."
      let s := add_log s "INFO" ts ("Verdaccio 入口: " ++ verdaccio_entry)
      let s := add_log s "INFO" ts ("配置文件: " ++ config_path)
      let s := add_log s "INFO" ts ("监听端口: " ++ toString port)
      let listen_host := if allow_lan then "0.0.0.0" else "127.0.0.1"
      let s := add_log s "INFO" ts ("监听地址: " ++ listen_host)
      match spawn with
      | .fail e =>
        let msg := "启动 Verdaccio 失败: " ++ e
        (fs, add_log s "ERROR" ts msg, .error msg)
      | .ok pid =>
        let s := add_log s "INFO" ts ("Verdaccio 进程已启动, PID: " ++ toString pid)
        let s := { s with child := some pid, port := port, pid := some pid }
        let s := set_running s true
        (fs, s,
          .ok { running := true
              , port := port
              , pid := some pid
              , storage_path := get_storage_path home
              , config_path := config_path })

/-- `stop_verdaccio` (verdaccio.rs lines 334-355).  `kill` is the outcome
of `proc.kill()`; `ts` the logger timestamp.  Note the `?` on line 344:
when the kill fails the function returns at once, after `take()` has
already emptied the child slot but before the pid is cleared and before
`set_running(false)`. -/
def stop_verdaccio (s : VerdaccioProcess) (kill : Except String Unit)
    (ts : String) : VerdaccioProcess × Except String Unit :=
  let s := add_log s "INFO" ts "正在停止 Verdaccio..."
  match s.child with
  | some _ =>
    let s := { s with child := none }
    match kill with
    | .error e =>
      let msg := "停止进程失败: " ++ e
      (add_log s "ERROR" ts msg, .error msg)
    | .ok _ =>
      let s := add_log s "INFO" ts "Verdaccio 已停止"
      let s := { s with pid := none }
      let s := set_running s false
      (s, .ok ())
  | none =>
    let s := { s with pid := none }
    let s := set_running s false
    (s, .ok ())

/-- Rust's `{:?}` rendering of the `Option<i32>` exit code in the
termination log line. -/
def debugExitCode : Option Int → String
  | none => "None"
  | some c => "Some(" ++ toString c ++ ")"

/-- The `CommandEvent::Terminated` arm of the background consumer
(verdaccio.rs lines 303-316) as its sequence of separate lock
acquisitions, each one atomic step: (1) `add_log` under the logs lock,
(2) `set_running(false)` under the `is_running` lock, (3) clear the child
slot under the child lock, (4) clear the pid under the pid lock.  A
concurrent status query may run between any two steps. -/
def term_steps (ts : String) (code : Option Int) :
    List (VerdaccioProcess → VerdaccioProcess) :=
  [ fun s => add_log s "INFO" ts ("Verdaccio 进程已退出, 退出码: " ++ debugExitCode code)
  , fun s => set_running s false
  , fun s => { s with child := none }
  , fun s => { s with pid := none } ]

/-- All states an interleaved observer can see while a micro-step sequence
runs: the initial state, each intermediate state, and the final state. -/
def observable (steps : List (VerdaccioProcess → VerdaccioProcess))
    (s : VerdaccioProcess) : List VerdaccioProcess :=
  steps.scanl (fun st f => f st) s

/-- The state after running a whole micro-step sequence. -/
def runSteps (steps : List (VerdaccioProcess → VerdaccioProcess))
    (s : VerdaccioProcess) : VerdaccioProcess :=
  steps.foldl (fun st f => f st) s

/-- The complete handling of one termination event. -/
def handle_terminated (s : VerdaccioProcess) (ts : String)
    (code : Option Int) : VerdaccioProcess :=
  runSteps (term_steps ts code) s

/-- `get_verdaccio_status` (verdaccio.rs lines 359-373). -/
def get_verdaccio_status (home : String) (s : VerdaccioProcess) : VerdaccioStatus :=
  { running := check_running s
  , port := s.port
  , pid := s.pid
  , storage_path := get_storage_path home
  , config_path := get_config_path home }

/-- `get_verdaccio_logs` (verdaccio.rs lines 377-382):
`logs.iter().cloned().collect()`, i.e. a front-to-back (oldest-first) copy. -/
def get_verdaccio_logs (s : VerdaccioProcess) : List LogEntry := s.logs

/-- `clear_verdaccio_logs` (verdaccio.rs lines 386-390). -/
def clear_verdaccio_logs (s : VerdaccioProcess) : VerdaccioProcess :=
  { s with logs := [] }

/-- Rust's `str::trim` on the character list: drop whitespace from both
ends.  (Rust trims the Unicode White_Space set; `Char.isWhitespace` covers
the ASCII subset, which is all the supervised process's line output and the
claims exercise.) -/
def trimChars (cs : List Char) : List Char :=
  ((cs.dropWhile Char.isWhitespace).reverse.dropWhile Char.isWhitespace).reverse

/-- Rust's `str::trim` on strings. -/
def rustTrim (s : String) : String := String.mk (trimChars s.data)

/-- The `CommandEvent::Stdout` arm of the background consumer
(verdaccio.rs lines 288-293): the line is trimmed, and only non-empty
output reaches `add_log` with level `STDOUT`. -/
def handle_stdout (s : VerdaccioProcess) (ts : String) (line : String) :
    VerdaccioProcess :=
  let output := rustTrim line
  if output = "" then s else add_log s "STDOUT" ts output

/-- The `CommandEvent::Stderr` arm (verdaccio.rs lines 294-299), identical
but for the level. -/
def handle_stderr (s : VerdaccioProcess) (ts : String) (line : String) :
    VerdaccioProcess :=
  let output := rustTrim line
  if output = "" then s else add_log s "STDERR" ts output

/-- A concrete record with a held handle and pid 42, running: the state
right after a successful spawn, used as explicit input in the
counterexamples. -/
def runningS : VerdaccioProcess :=
  { child := some 42, port := 4873, pid := some 42, logs := [], is_running := true }

/-- A filesystem with none of the on-disk artifacts present. -/
def emptyFs : FsState :=
  { verdaccio_dir := false, storage_dir := false, config_file := false }

/-- A filesystem with every on-disk artifact present. -/
def fullFs : FsState :=
  { verdaccio_dir := true, storage_dir := true, config_file := true }

/-- One client-visible operation on the log buffer, for stating buffer
invariants over arbitrary operation sequences: an `add_log` append (with
its level, timestamp and raw message) or a `clear_verdaccio_logs`. -/
inductive LogOp where
  | append (level : String) (ts : String) (message : String)
  | clear
  deriving DecidableEq, Repr

/-- Apply one log operation to the record. -/
def applyLogOp (s : VerdaccioProcess) : LogOp → VerdaccioProcess
  | .append level ts message => add_log s level ts message
  | .clear => clear_verdaccio_logs s

/-- Run a sequence of log operations from a starting record. -/
def runLogOps (s : VerdaccioProcess) (ops : List LogOp) : VerdaccioProcess :=
  ops.foldl applyLogOp s

/-! ### Lemmas about the eviction loop and `add_log` -/

/-- A buffer already within capacity is left alone by the eviction loop. -/
lemma popFrontLoop_of_le (fuel : Nat) (logs : List LogEntry)
    (h : logs.length ≤ MAX_LOG_ENTRIES) : popFrontLoop fuel logs = logs := by
  cases fuel with
  | zero => rfl
  | succ n =>
    unfold popFrontLoop
    rw [if_neg (by omega)]

/-- One unfolding step of the eviction loop at positive fuel. -/
lemma popFrontLoop_succ (fuel : Nat) (logs : List LogEntry) :
    popFrontLoop (fuel + 1) logs =
      if logs.length > MAX_LOG_ENTRIES then popFrontLoop fuel (logs.drop 1)
      else logs := rfl

/-- Pushing one entry onto a within-capacity buffer and running the
eviction loop keeps the buffer as-is when below capacity and otherwise
evicts exactly the single oldest entry. -/
lemma pushEvict_eq (logs : List LogEntry) (e : LogEntry)
    (h : logs.length ≤ MAX_LOG_ENTRIES) :
    popFrontLoop (logs ++ [e]).length (logs ++ [e]) =
      (if logs.length < MAX_LOG_ENTRIES then logs else logs.drop 1) ++ [e] := by
  have hM : MAX_LOG_ENTRIES = 1000 := rfl
  by_cases hc : logs.length < MAX_LOG_ENTRIES
  · rw [if_pos hc]
    exact popFrontLoop_of_le _ _
      (by simp only [List.length_append, List.length_cons, List.length_nil]; omega)
  · rw [if_neg hc]
    have heq : logs.length = MAX_LOG_ENTRIES := by omega
    have hlen : (logs ++ [e]).length = MAX_LOG_ENTRIES + 1 := by
      simp only [List.length_append, List.length_cons, List.length_nil, heq]
    rw [hlen, popFrontLoop_succ, if_pos (by rw [hlen]; omega),
      List.drop_append_of_le_length (by omega)]
    exact popFrontLoop_of_le _ _
      (by simp only [List.length_append, List.length_cons, List.length_nil,
            List.length_drop, heq]; omega)

/-- `add_log` appends the ANSI-stripped message at the newest end and, if
the buffer was full, evicts exactly the single oldest entry. -/
lemma add_log_logs (s : VerdaccioProcess) (lvl ts msg : String)
    (h : s.logs.length ≤ MAX_LOG_ENTRIES) :
    (add_log s lvl ts msg).logs =
      (if s.logs.length < MAX_LOG_ENTRIES then s.logs else s.logs.drop 1)
        ++ [({ timestamp := ts, level := lvl, message := strip_ansi_codes msg } : LogEntry)] := by
  simp only [add_log]
  exact pushEvict_eq s.logs _ h

/-- The buffer length after `add_log` never exceeds the capacity. -/
lemma add_log_len (s : VerdaccioProcess) (lvl ts msg : String)
    (h : s.logs.length ≤ MAX_LOG_ENTRIES) :
    (add_log s lvl ts msg).logs.length ≤ MAX_LOG_ENTRIES := by
  have hM : MAX_LOG_ENTRIES = 1000 := rfl
  rw [add_log_logs s lvl ts msg h]
  by_cases hc : s.logs.length < MAX_LOG_ENTRIES
  · rw [if_pos hc]
    simp only [List.length_append, List.length_cons, List.length_nil]
    omega
  · rw [if_neg hc]
    simp only [List.length_append, List.length_cons, List.length_nil, List.length_drop]
    omega

/-- The capacity bound is an invariant of arbitrary append/clear sequences. -/
lemma runLogOps_len (ops : List LogOp) (s : VerdaccioProcess)
    (h : s.logs.length ≤ MAX_LOG_ENTRIES) :
    (runLogOps s ops).logs.length ≤ MAX_LOG_ENTRIES := by
  induction ops generalizing s with
  | nil => exact h
  | cons op rest ih =>
    cases op with
    | append lvl ts msg => exact ih _ (add_log_len s lvl ts msg h)
    | clear => exact ih _ (Nat.zero_le _)

/-- `add_log` below capacity is a plain append, the rest of the record
untouched. -/
lemma add_log_of_lt (s : VerdaccioProcess) (lvl ts msg : String)
    (h : s.logs.length < MAX_LOG_ENTRIES) :
    add_log s lvl ts msg =
      { s with logs := s.logs ++
          [{ timestamp := ts, level := lvl, message := strip_ansi_codes msg }] } := by
  have hlogs := add_log_logs s lvl ts msg (le_of_lt h)
  rw [if_pos h] at hlogs
  calc add_log s lvl ts msg
      = { s with logs := (add_log s lvl ts msg).logs } := rfl
    _ = _ := by rw [hlogs]

/-! ### Lemmas about the ANSI stripper -/

/-- Consuming the parameter bytes and the final `m` strictly shortens the
input. -/
lemma skipParams_length {cs cs2 : List Char} (h : skipParams cs = some cs2) :
    cs2.length < cs.length := by
  induction cs generalizing cs2 with
  | nil => exact Option.noConfusion h
  | cons c cs ih =>
    simp only [skipParams] at h
    by_cases hp : isParamChar c = true
    · rw [if_pos hp] at h
      have := ih h
      simp only [List.length_cons]
      omega
    · rw [if_neg hp] at h
      by_cases hm : c = 'm'
      · rw [if_pos hm] at h
        cases h
        simp
      · rw [if_neg hm] at h
        cases h

/-- A successful SGR match strictly shortens the input. -/
lemma matchSgr_length {cs cs2 : List Char} (h : matchSgr cs = some cs2) :
    cs2.length < cs.length := by
  cases cs with
  | nil => exact Option.noConfusion h
  | cons c rest =>
    simp only [matchSgr] at h
    by_cases hc : c = '['
    · rw [if_pos hc] at h
      have := skipParams_length h
      simp only [List.length_cons]
      omega
    · rw [if_neg hc] at h
      cases h

/-- The scanner ignores fuel beyond the input length. -/
lemma stripAnsiFuel_congr (n : Nat) :
    ∀ (m : Nat) (cs : List Char), cs.length ≤ n → cs.length ≤ m →
      stripAnsiFuel n cs = stripAnsiFuel m cs := by
  induction n with
  | zero =>
    intro m cs hn _
    have : cs = [] := List.length_eq_zero.mp (Nat.le_zero.mp hn)
    subst this
    cases m <;> rfl
  | succ n ih =>
    intro m cs hn hm
    cases cs with
    | nil => cases m <;> rfl
    | cons c rest =>
      simp only [List.length_cons] at hn hm
      cases m with
      | zero => omega
      | succ m =>
        show (if c = escChar then
            match matchSgr rest with
            | some rest2 => stripAnsiFuel n rest2
            | none => c :: stripAnsiFuel n rest
          else c :: stripAnsiFuel n rest) =
          (if c = escChar then
            match matchSgr rest with
            | some rest2 => stripAnsiFuel m rest2
            | none => c :: stripAnsiFuel m rest
          else c :: stripAnsiFuel m rest)
        by_cases hc : c = escChar
        · rw [if_pos hc, if_pos hc]
          cases hms : matchSgr rest with
          | none =>
            show c :: stripAnsiFuel n rest = c :: stripAnsiFuel m rest
            rw [ih m rest (by omega) (by omega)]
          | some rest2 =>
            have hlt := matchSgr_length hms
            show stripAnsiFuel n rest2 = stripAnsiFuel m rest2
            exact ih m rest2 (by omega) (by omega)
        · rw [if_neg hc, if_neg hc, ih m rest (by omega) (by omega)]

/-- Any sufficient fuel computes `stripAnsiList`. -/
lemma stripAnsiFuel_eq (n : Nat) (cs : List Char) (h : cs.length ≤ n) :
    stripAnsiFuel n cs = stripAnsiList cs :=
  stripAnsiFuel_congr n cs.length cs h le_rfl

/-- A character that is not the escape character passes through unchanged. -/
lemma stripAnsiList_cons_of_ne (c : Char) (cs : List Char) (h : c ≠ escChar) :
    stripAnsiList (c :: cs) = c :: stripAnsiList cs := by
  show (if c = escChar then
      match matchSgr cs with
      | some rest2 => stripAnsiFuel cs.length rest2
      | none => c :: stripAnsiFuel cs.length cs
    else c :: stripAnsiFuel cs.length cs) = c :: stripAnsiList cs
  rw [if_neg h]
  rfl

/-- An escape character that does not open a full SGR sequence (malformed
or truncated sequence) passes through unchanged. -/
lemma stripAnsiList_esc_none (cs : List Char) (h : matchSgr cs = none) :
    stripAnsiList (escChar :: cs) = escChar :: stripAnsiList cs := by
  show (if escChar = escChar then
      match matchSgr cs with
      | some rest2 => stripAnsiFuel cs.length rest2
      | none => escChar :: stripAnsiFuel cs.length cs
    else escChar :: stripAnsiFuel cs.length cs) = escChar :: stripAnsiList cs
  rw [if_pos rfl, h]
  rfl

/-- An escape character opening a full SGR match deletes the whole match. -/
lemma stripAnsiList_esc_some (cs cs2 : List Char) (h : matchSgr cs = some cs2) :
    stripAnsiList (escChar :: cs) = stripAnsiList cs2 := by
  show (if escChar = escChar then
      match matchSgr cs with
      | some rest2 => stripAnsiFuel cs.length rest2
      | none => escChar :: stripAnsiFuel cs.length cs
    else escChar :: stripAnsiFuel cs.length cs) = stripAnsiList cs2
  rw [if_pos rfl, h]
  exact stripAnsiFuel_eq _ _ (by have := matchSgr_length h; omega)

/-- Parameter bytes followed by `m` are consumed exactly. -/
lemma skipParams_params (ps rest : List Char)
    (h : ∀ c ∈ ps, isParamChar c = true) :
    skipParams (ps ++ 'm' :: rest) = some rest := by
  induction ps with
  | nil =>
    rw [List.nil_append]
    show (if isParamChar 'm' = true then skipParams rest
      else if 'm' = 'm' then some rest else none) = some rest
    rw [if_neg (by decide), if_pos rfl]
  | cons c ps ih =>
    rw [List.cons_append]
    show (if isParamChar c = true then skipParams (ps ++ 'm' :: rest)
      else if c = 'm' then some (ps ++ 'm' :: rest) else none) = some rest
    rw [if_pos (h c (List.mem_cons_self c ps))]
    exact ih fun c hc => h c (List.mem_cons_of_mem _ hc)

/-- `matchSgr` recognises exactly `[` + parameter bytes + `m`. -/
lemma matchSgr_params (ps rest : List Char)
    (h : ∀ c ∈ ps, isParamChar c = true) :
    matchSgr ('[' :: (ps ++ 'm' :: rest)) = some rest := by
  show (if '[' = '[' then skipParams (ps ++ 'm' :: rest) else none) = some rest
  rw [if_pos rfl]
  exact skipParams_params ps rest h

/-- A full SGR escape sequence is removed in one piece. -/
lemma stripAnsiList_sgr (ps rest : List Char)
    (h : ∀ c ∈ ps, isParamChar c = true) :
    stripAnsiList (escChar :: '[' :: (ps ++ 'm' :: rest)) = stripAnsiList rest :=
  stripAnsiList_esc_some _ _ (matchSgr_params ps rest h)

/-- Escape-free text before any position is carried over verbatim. -/
lemma stripAnsiList_append_noesc (p cs : List Char)
    (hp : ∀ c ∈ p, c ≠ escChar) :
    stripAnsiList (p ++ cs) = p ++ stripAnsiList cs := by
  induction p with
  | nil => simp
  | cons c p ih =>
    rw [List.cons_append,
      stripAnsiList_cons_of_ne c _ (hp c (List.mem_cons_self c p)),
      ih fun c hc => hp c (List.mem_cons_of_mem _ hc), List.cons_append]

/-- Text containing no escape character is left entirely unchanged. -/
lemma stripAnsiList_noesc (cs : List Char) (h : ∀ c ∈ cs, c ≠ escChar) :
    stripAnsiList cs = cs := by
  have h2 := stripAnsiList_append_noesc cs [] h
  have h0 : stripAnsiList ([] : List Char) = [] := rfl
  rw [h0, List.append_nil] at h2
  exact h2

/-! ### Claim theorems -/

/-- C1 counterexample: with a held child handle and a failing kill
(`kill = .error "boom"`), `stop_verdaccio` returns the error but does NOT
clear the pid nor the running flag (the `?` on the kill result returns
before the bookkeeping lines run), contradicting the claim that the
bookkeeping is cleared unconditionally. -/
theorem stop_kill_failure_clears_counterexample :
    (stop_verdaccio runningS (.error "boom") "t").2 = .error "停止进程失败: boom"
    ∧ (stop_verdaccio runningS (.error "boom") "t").1.pid = some 42
    ∧ (stop_verdaccio runningS (.error "boom") "t").1.is_running = true
    ∧ ¬ ((stop_verdaccio runningS (.error "boom") "t").1.pid = none
        ∧ (stop_verdaccio runningS (.error "boom") "t").1.is_running = false) :=
  ⟨rfl, by decide, by decide, by decide⟩

/-- C1 (amended): when a child handle is held and the OS-level kill fails,
`stop_verdaccio` propagates the error and the handle has been taken
(cleared), but the pid field and the running flag keep their previous
values: the bookkeeping is cleared only on the successful-kill path. -/
theorem stop_kill_failure_keeps_bookkeeping (s : VerdaccioProcess) (c : Nat)
    (e ts : String) (h : s.child = some c) :
    (stop_verdaccio s (.error e) ts).2 = .error ("停止进程失败: " ++ e)
    ∧ (stop_verdaccio s (.error e) ts).1.child = none
    ∧ (stop_verdaccio s (.error e) ts).1.pid = s.pid
    ∧ (stop_verdaccio s (.error e) ts).1.is_running = s.is_running := by
  obtain ⟨child, port, pid, logs, run⟩ := s
  change child = some c at h
  subst h
  exact ⟨rfl, rfl, rfl, rfl⟩

/-- C1 witness: the amended theorem applied at a concrete running state. -/
theorem stop_kill_failure_keeps_bookkeeping_witness :
    runningS.child = some 42
    ∧ ((stop_verdaccio runningS (.error "boom") "t").2 =
          .error ("停止进程失败: " ++ "boom")
      ∧ (stop_verdaccio runningS (.error "boom") "t").1.child = none
      ∧ (stop_verdaccio runningS (.error "boom") "t").1.pid = runningS.pid
      ∧ (stop_verdaccio runningS (.error "boom") "t").1.is_running =
          runningS.is_running) :=
  ⟨rfl, stop_kill_failure_keeps_bookkeeping runningS 42 "boom" "t" rfl⟩

/-- C2 counterexample: in the termination handler the running flag is set
to false in its own lock acquisition before the pid is cleared in another,
so the intermediate state after the first two micro-steps is observable,
and a status query taken there reports `running = false` together with
`pid = some 42`. -/
theorem termination_window_counterexample :
    runSteps ((term_steps "t" (some 0)).take 2) runningS
      ∈ observable (term_steps "t" (some 0)) runningS
    ∧ (get_verdaccio_status "/home/user"
        (runSteps ((term_steps "t" (some 0)).take 2) runningS)).running = false
    ∧ (get_verdaccio_status "/home/user"
        (runSteps ((term_steps "t" (some 0)).take 2) runningS)).pid = some 42 := by
  refine ⟨?_, by decide, by decide⟩
  exact List.Mem.tail _ (List.Mem.tail _ (List.Mem.head _))

/-- C2 (amended): the termination handler performs its updates as separate
lock acquisitions in the order log-append, `set_running(false)`, clear
handle, clear pid; once all four steps have run, `running = false`,
`pid = none` and `child = none` hold, but the state after the first two
steps is an observable intermediate state with `running = false` while the
pid still holds its old value — so an observer can see `running == false`
with `pid.is_some()`. -/
theorem termination_update_not_atomic (s : VerdaccioProcess) (ts : String)
    (code : Option Int) :
    (handle_terminated s ts code).is_running = false
    ∧ (handle_terminated s ts code).pid = none
    ∧ (handle_terminated s ts code).child = none
    ∧ (runSteps ((term_steps ts code).take 2) s).is_running = false
    ∧ (runSteps ((term_steps ts code).take 2) s).pid = s.pid
    ∧ runSteps ((term_steps ts code).take 2) s ∈ observable (term_steps ts code) s := by
  refine ⟨rfl, rfl, rfl, rfl, rfl, ?_⟩
  exact List.Mem.tail _ (List.Mem.tail _ (List.Mem.head _))

/-- C3 counterexample: `add_log` applied to a whitespace-only message
stores the message verbatim (only ANSI codes are stripped) — it is not
trimmed and the entry is not dropped, contradicting the claim that the
append operation trims and drops empty-after-trim messages. -/
theorem add_log_whitespace_counterexample :
    (add_log VerdaccioProcess.default "INFO" "2024-01-01 00:00:00.000" "   ").logs =
      [{ timestamp := "2024-01-01 00:00:00.000", level := "INFO", message := "   " }]
    ∧ (add_log VerdaccioProcess.default "INFO" "2024-01-01 00:00:00.000" "   ").logs ≠ [] :=
  ⟨by decide, by decide⟩

/-- C3 (amended): `add_log` itself never trims and always inserts — the
stored message is exactly the ANSI-stripped raw message.  The trimming and
empty-filtering the spec describes live in the stdout/stderr event arms of
the background consumer, which trim each line and drop it when empty
before ever calling `add_log`; in particular a whitespace-only line such
as `"   "` coming from the child process produces no entry. -/
theorem add_log_no_trim_event_handler_trims (s : VerdaccioProcess)
    (lvl ts msg : String) (h : s.logs.length < MAX_LOG_ENTRIES) :
    (add_log s lvl ts msg).logs =
      s.logs ++ [{ timestamp := ts, level := lvl, message := strip_ansi_codes msg }]
    ∧ handle_stdout s ts "   " = s
    ∧ handle_stderr s ts "   " = s := by
  refine ⟨?_, rfl, rfl⟩
  have h2 := add_log_logs s lvl ts msg (le_of_lt h)
  rwa [if_pos h] at h2

/-- C3 witness: the amended theorem applied at the fresh record with a
whitespace-only message. -/
theorem add_log_no_trim_event_handler_trims_witness :
    VerdaccioProcess.default.logs.length < MAX_LOG_ENTRIES
    ∧ ((add_log VerdaccioProcess.default "INFO" "t" "   ").logs =
        VerdaccioProcess.default.logs ++
          [{ timestamp := "t", level := "INFO", message := strip_ansi_codes "   " }]
      ∧ handle_stdout VerdaccioProcess.default "t" "   " = VerdaccioProcess.default
      ∧ handle_stderr VerdaccioProcess.default "t" "   " = VerdaccioProcess.default) :=
  ⟨by decide, add_log_no_trim_event_handler_trims VerdaccioProcess.default "INFO" "t" "   "
    (by decide)⟩

/-- C4 (confirmed): the log buffer length never exceeds 1000 over any
sequence of append/clear operations (both from the fresh record and from
any within-capacity state); an append that would exceed the capacity
evicts exactly the single oldest entry from the front (strict FIFO); and
the log query returns the entries in insertion order, oldest first. -/
theorem log_buffer_bounded_fifo_ordered (ops : List LogOp) (s : VerdaccioProcess)
    (lvl ts msg : String) (h : s.logs.length ≤ MAX_LOG_ENTRIES) :
    (runLogOps VerdaccioProcess.default ops).logs.length ≤ MAX_LOG_ENTRIES
    ∧ (runLogOps s ops).logs.length ≤ MAX_LOG_ENTRIES
    ∧ (add_log s lvl ts msg).logs =
        (if s.logs.length < MAX_LOG_ENTRIES then s.logs else s.logs.drop 1)
          ++ [{ timestamp := ts, level := lvl, message := strip_ansi_codes msg }]
    ∧ get_verdaccio_logs s = s.logs :=
  ⟨runLogOps_len ops _ (Nat.zero_le _), runLogOps_len ops s h,
    add_log_logs s lvl ts msg h, rfl⟩

/-- C4 witness: the theorem applied at the fresh record and a concrete
append/clear/append operation sequence. -/
theorem log_buffer_bounded_fifo_ordered_witness :
    VerdaccioProcess.default.logs.length ≤ MAX_LOG_ENTRIES
    ∧ ((runLogOps VerdaccioProcess.default
          [.append "INFO" "t1" "hello", .clear, .append "STDOUT" "t2" "world"]).logs.length
        ≤ MAX_LOG_ENTRIES
      ∧ (runLogOps VerdaccioProcess.default
          [.append "INFO" "t1" "hello", .clear, .append "STDOUT" "t2" "world"]).logs.length
        ≤ MAX_LOG_ENTRIES
      ∧ (add_log VerdaccioProcess.default "INFO" "t" "hi").logs =
          (if VerdaccioProcess.default.logs.length < MAX_LOG_ENTRIES
            then VerdaccioProcess.default.logs else VerdaccioProcess.default.logs.drop 1)
            ++ [{ timestamp := "t", level := "INFO", message := strip_ansi_codes "hi" }]
      ∧ get_verdaccio_logs VerdaccioProcess.default = VerdaccioProcess.default.logs) :=
  ⟨by decide, log_buffer_bounded_fifo_ordered
    [.append "INFO" "t1" "hello", .clear, .append "STDOUT" "t2" "world"]
    VerdaccioProcess.default "INFO" "t" "hi" (by decide)⟩

/-- C5 (confirmed): the sanitizer removes every substring matching
escape + `[` + digits/semicolons + `m` (the removal equation over an
arbitrary escape-free prefix, parameter bytes and suffix), leaves
escape-free text unchanged, leaves malformed/truncated escape sequences
unchanged, and maps `"\x1b[31mhello\x1b[0m"` to exactly `"hello"`. -/
theorem strip_ansi_codes_removes_sgr (p ps rest cs : List Char)
    (hp : ∀ c ∈ p, c ≠ escChar) (hps : ∀ c ∈ ps, isParamChar c = true)
    (hcs : ∀ c ∈ cs, c ≠ escChar) (hmal : matchSgr cs = none) :
    strip_ansi_codes "\x1b[31mhello\x1b[0m" = "hello"
    ∧ stripAnsiList (p ++ escChar :: '[' :: (ps ++ 'm' :: rest)) = p ++ stripAnsiList rest
    ∧ stripAnsiList cs = cs
    ∧ stripAnsiList (escChar :: cs) = escChar :: stripAnsiList cs :=
  ⟨by decide,
    by rw [stripAnsiList_append_noesc _ _ hp, stripAnsiList_sgr _ _ hps],
    stripAnsiList_noesc cs hcs,
    stripAnsiList_esc_none cs hmal⟩

/-- C5 witness: the theorem applied at a concrete prefix, parameter list
and truncated sequence. -/
theorem strip_ansi_codes_removes_sgr_witness :
    (∀ c ∈ ['a', 'b'], c ≠ escChar)
    ∧ (∀ c ∈ ['3', '1'], isParamChar c = true)
    ∧ (∀ c ∈ ['[', '3', '1'], c ≠ escChar)
    ∧ matchSgr ['[', '3', '1'] = none
    ∧ (strip_ansi_codes "\x1b[31mhello\x1b[0m" = "hello"
      ∧ stripAnsiList (['a', 'b'] ++ escChar :: '[' :: (['3', '1'] ++ 'm' :: ['c']))
          = ['a', 'b'] ++ stripAnsiList ['c']
      ∧ stripAnsiList ['[', '3', '1'] = ['[', '3', '1']
      ∧ stripAnsiList (escChar :: ['[', '3', '1'])
          = escChar :: stripAnsiList ['[', '3', '1']) :=
  ⟨by decide, by decide, by decide, by decide,
    strip_ansi_codes_removes_sgr ['a', 'b'] ['3', '1'] ['c'] ['[', '3', '1']
      (by decide) (by decide) (by decide) (by decide)⟩

/-- C6 counterexample: calling start while already running, with none of
the on-disk artifacts present, fails with AlreadyRunning but has created
the config directory, storage directory and default config file, because
`ensure_verdaccio_dirs` runs before the precondition check — contradicting
the claim that a failed start creates no filesystem artifact. -/
theorem start_already_running_creates_files_counterexample :
    (start_verdaccio "/home/user" emptyFs runningS 4873 false
      (.ok "/entry") (.ok 43) "t").2.2 = .error "Verdaccio 已经在运行"
    ∧ (start_verdaccio "/home/user" emptyFs runningS 4873 false
      (.ok "/entry") (.ok 43) "t").1 = fullFs
    ∧ (start_verdaccio "/home/user" emptyFs runningS 4873 false
      (.ok "/entry") (.ok 43) "t").1 ≠ emptyFs :=
  ⟨rfl, by decide, by decide⟩

/-- C6 (amended): a start call made while the precondition is violated
fails with the AlreadyRunning error and leaves the process record (every
field, including the log buffer) unchanged, but the idempotent
directory/config-creation step has already run before the check, so the
failed call may create the config directory, storage directory and default
config file. -/
theorem start_precondition_violation_fs_effect (home : String) (fs : FsState)
    (s : VerdaccioProcess) (port : Nat) (allow_lan : Bool)
    (entry : Except String String) (spawn : SpawnOutcome) (ts : String)
    (h : check_running s = true ∨ s.child.isSome = true) :
    (start_verdaccio home fs s port allow_lan entry spawn ts).2.2 =
      .error "Verdaccio 已经在运行"
    ∧ (start_verdaccio home fs s port allow_lan entry spawn ts).2.1 = s
    ∧ (start_verdaccio home fs s port allow_lan entry spawn ts).1 =
        ensure_verdaccio_dirs fs := by
  obtain ⟨child, sport, pid, logs, run⟩ := s
  cases run with
  | true => exact ⟨rfl, rfl, rfl⟩
  | false =>
    cases child with
    | some c => exact ⟨rfl, rfl, rfl⟩
    | none =>
      exfalso
      rcases h with h | h
      · exact Bool.noConfusion h
      · exact Bool.noConfusion h

/-- C6 witness: the amended theorem applied at a concrete already-running
state over an empty filesystem. -/
theorem start_precondition_violation_fs_effect_witness :
    (check_running runningS = true ∨ runningS.child.isSome = true)
    ∧ ((start_verdaccio "/home/user" emptyFs runningS 4873 true
        (.ok "/entry") (.ok 43) "t").2.2 = .error "Verdaccio 已经在运行"
      ∧ (start_verdaccio "/home/user" emptyFs runningS 4873 true
        (.ok "/entry") (.ok 43) "t").2.1 = runningS
      ∧ (start_verdaccio "/home/user" emptyFs runningS 4873 true
        (.ok "/entry") (.ok 43) "t").1 = ensure_verdaccio_dirs emptyFs) :=
  ⟨Or.inl rfl, start_precondition_violation_fs_effect "/home/user" emptyFs runningS
    4873 true (.ok "/entry") (.ok 43) "t" (Or.inl rfl)⟩

/-- C7 (confirmed): the `--listen` argument handed to the spawned sidecar
is `0.0.0.0:<port>` when LAN access is allowed and `127.0.0.1:<port>`
otherwise. -/
theorem start_listen_address (entry cfg : String) (port : Nat) :
    spawn_args entry cfg port true =
      [entry, "--config", cfg, "--listen", "0.0.0.0:" ++ toString port]
    ∧ spawn_args entry cfg port false =
      [entry, "--config", cfg, "--listen", "127.0.0.1:" ++ toString port] :=
  ⟨rfl, rfl⟩

/-- C8 counterexample: `stop_verdaccio` on the fresh, never-started record
returns success and leaves pid and running untouched, but it appends the
"stopping" INFO entry to the log buffer before checking anything, so the
observable state does change — contradicting the claim that the log buffer
is unchanged. -/
theorem stop_never_started_state_change_counterexample :
    (stop_verdaccio VerdaccioProcess.default (.ok ()) "t").2 = .ok ()
    ∧ (stop_verdaccio VerdaccioProcess.default (.ok ()) "t").1.pid = none
    ∧ (stop_verdaccio VerdaccioProcess.default (.ok ()) "t").1.is_running = false
    ∧ (stop_verdaccio VerdaccioProcess.default (.ok ()) "t").1.logs =
        [{ timestamp := "t", level := "INFO", message := "正在停止 Verdaccio..." }]
    ∧ (stop_verdaccio VerdaccioProcess.default (.ok ()) "t").1.logs ≠
        VerdaccioProcess.default.logs :=
  ⟨rfl, by decide, by decide, by decide, by decide⟩

/-- C8 (amended): stopping a never-started record (no handle, no pid,
running flag false) returns success and is a no-op on the handle, pid and
running flag, but it does append one INFO "stopping" log entry, so the log
buffer — and therefore the observable state — changes. -/
theorem stop_never_started_appends_log (s : VerdaccioProcess)
    (k : Except String Unit) (ts : String) (h1 : s.child = none)
    (h2 : s.pid = none) (h3 : s.is_running = false)
    (h4 : s.logs.length < MAX_LOG_ENTRIES) :
    (stop_verdaccio s k ts).2 = .ok ()
    ∧ (stop_verdaccio s k ts).1.child = none
    ∧ (stop_verdaccio s k ts).1.pid = none
    ∧ (stop_verdaccio s k ts).1.is_running = false
    ∧ (stop_verdaccio s k ts).1.logs =
        s.logs ++ [{ timestamp := ts, level := "INFO", message := "正在停止 Verdaccio..." }] := by
  have ha := add_log_of_lt s "INFO" ts "正在停止 Verdaccio..." h4
  obtain ⟨child, port, pid, logs, run⟩ := s
  change child = none at h1
  subst h1
  refine ⟨rfl, rfl, rfl, rfl, ?_⟩
  show (add_log { child := none, port := port, pid := pid, logs := logs, is_running := run } "INFO" ts "正在停止 Verdaccio...").logs = _
  rw [ha]
  rfl

/-- C8 witness: the amended theorem applied at the fresh record. -/
theorem stop_never_started_appends_log_witness :
    VerdaccioProcess.default.child = none
    ∧ VerdaccioProcess.default.pid = none
    ∧ VerdaccioProcess.default.is_running = false
    ∧ VerdaccioProcess.default.logs.length < MAX_LOG_ENTRIES
    ∧ ((stop_verdaccio VerdaccioProcess.default (.ok ()) "t").2 = .ok ()
      ∧ (stop_verdaccio VerdaccioProcess.default (.ok ()) "t").1.child = none
      ∧ (stop_verdaccio VerdaccioProcess.default (.ok ()) "t").1.pid = none
      ∧ (stop_verdaccio VerdaccioProcess.default (.ok ()) "t").1.is_running = false
      ∧ (stop_verdaccio VerdaccioProcess.default (.ok ()) "t").1.logs =
          VerdaccioProcess.default.logs ++
            [{ timestamp := "t", level := "INFO", message := "正在停止 Verdaccio..." }]) :=
  ⟨rfl, rfl, rfl, by decide,
    stop_never_started_appends_log VerdaccioProcess.default (.ok ()) "t"
      rfl rfl rfl (by decide)⟩

/-- C9 (confirmed): neither `stop_verdaccio` (any kill outcome, with or
without a held handle) nor the termination handler touches the port field,
and the status query reports exactly that retained port. -/
theorem stop_and_termination_preserve_port (home ts : String)
    (s : VerdaccioProcess) (k : Except String Unit) (code : Option Int) :
    (stop_verdaccio s k ts).1.port = s.port
    ∧ (handle_terminated s ts code).port = s.port
    ∧ (get_verdaccio_status home s).port = s.port := by
  refine ⟨?_, rfl, rfl⟩
  obtain ⟨child, port, pid, logs, run⟩ := s
  cases child with
  | none => rfl
  | some c =>
    cases k with
    | ok u => rfl
    | error e => rfl

/-- C10 (confirmed): on the freshly created record the status query
reports running = false, pid = none and the default port 4873, and the log
query returns the empty list. -/
theorem fresh_record_status_and_logs (home : String) :
    (get_verdaccio_status home VerdaccioProcess.default).running = false
    ∧ (get_verdaccio_status home VerdaccioProcess.default).pid = none
    ∧ (get_verdaccio_status home VerdaccioProcess.default).port = 4873
    ∧ get_verdaccio_logs VerdaccioProcess.default = [] :=
  ⟨rfl, rfl, rfl, rfl⟩

end Verdaccio
